import Mathlib

/-
Verification development for the nats-rest-config-proxy configuration
service.

The model has two layers.

1. A shallow embedding of internal/server/server.go: server construction,
   the Run loop built on a cancellable context, and Shutdown.

2. A model of the Registry, Config Generator, Snapshot Store and Publisher
   components.  The production source of these components is not part of
   the repository tree inspected here (only the HTTP-level integration
   tests exercise them), so those definitions follow the specification
   text; each such definition is marked in its doc comment.
-/

namespace NatsProxy

/-- Options carried by the server, restricted to the fields server.go reads. -/
structure Options where
  noSignals : Bool := false
  noLog : Bool := false
  debug : Bool := false
  trace : Bool := false

/-- Result of running a Go statement that may panic, for example calling a
nil function value. -/
inductive GoOutcome (α : Type) where
  | panicked (msg : String)
  | ret (a : α)

/-- The Server struct of server.go: the quit field is a Go function value
whose zero value is nil, modelled as an Option that starts out none. -/
structure Server where
  opts : Options
  quit : Option (Unit → Unit)

/-- NewServer from server.go: substitutes default options when given nil and
leaves the quit field at its zero value (nil). -/
def NewServer (opts : Option Options) : Server :=
  { opts := opts.getD {}, quit := none }

/-- Shutdown from server.go calls s.quit(); in Go, calling a nil function
value panics with a nil pointer dereference. -/
def Server.Shutdown (s : Server) : GoOutcome Server :=
  match s.quit with
  | none => GoOutcome.panicked "invalid memory address or nil pointer dereference"
  | some f =>
    let _ := f ()
    GoOutcome.ret s

/-- The assignment performed inside Run: s.quit is set to a function that
invokes the cancelFn of the derived context. -/
def Server.installQuit (s : Server) (cancelFn : Unit → Unit) : Server :=
  { s with quit := some cancelFn }

/-- Errors a Go context reports once its done channel is closed. -/
inductive CtxErr where
  | canceled
  | deadlineExceeded
deriving DecidableEq, Repr

/-- Why the cancellable context derived inside Run became done: either the
parent context was done first (the derived context inherits its error), or
the quit function installed by Run invoked cancelFn first (context.Canceled). -/
inductive DoneCause where
  | parentDone (e : CtxErr)
  | quitCalled
deriving DecidableEq, Repr

/-- Error reported by the derived context created by context.WithCancel in
Run, as a function of which cancellation happened first. -/
def derivedCtxErr : DoneCause → CtxErr
  | DoneCause.parentDone e => e
  | DoneCause.quitCalled => CtxErr.canceled

/-- The select statement at the end of Run has a single case: once the
derived context is done, Run returns ctx.Err().  The argument none means the
derived context is not yet done, in which case Run is still blocked and has
no return value (outer none); otherwise Run returns the derived context
error, which is a Go error value (inner Option, none standing for Go nil). -/
def runReturn : Option DoneCause → Option (Option CtxErr)
  | none => none
  | some c => some (some (derivedCtxErr c))

/-- Modelled from the spec: Identity record of the Registry (section 3); the
production Registry source is absent from the inspected tree. -/
structure Identity where
  name : String
  credential : String
  permissionRef : Option String
  accountRef : Option String
deriving DecidableEq, Repr

/-- Modelled from the spec: Permission Template of the Registry (section 3). -/
structure PermissionTemplate where
  name : String
  publishAllow : List String
  publishDeny : List String
  subscribeAllow : List String
  subscribeDeny : List String
deriving DecidableEq, Repr

/-- Modelled from the spec: Registry state, identities and permission
templates keyed by name (names are kept unique by upsert). -/
structure Registry where
  identities : List Identity
  permissions : List PermissionTemplate
deriving DecidableEq, Repr

/-- Permissions block of a rendered user record; empty allow/deny arrays are
omitted (none) rather than emitted as empty lists. -/
structure PermBlock where
  pubAllow : Option (List String)
  pubDeny : Option (List String)
  subAllow : Option (List String)
  subDeny : Option (List String)
deriving DecidableEq, Repr

/-- Rendered user record of the Authorization Document. -/
structure UserRecord where
  username : String
  password : String
  permissions : Option PermBlock
deriving DecidableEq, Repr

/-- Modelled from the spec: the generated Authorization Document, either a
flat users list or an accounts map plus the global users list (section 3). -/
inductive AuthDocument where
  | flat (users : List UserRecord)
  | withAccounts (accounts : List (String × List UserRecord)) (users : List UserRecord)
deriving DecidableEq, Repr

/-- DanglingReference error payload: identifies the identity and the missing
permission template (spec section 7). -/
structure GenError where
  identity : String
  missingTemplate : String
deriving DecidableEq, Repr

/-- Lexicographic comparison of character lists by code point. -/
def charListLe : List Char → List Char → Bool
  | [], _ => true
  | _ :: _, [] => false
  | a :: as, b :: bs =>
    if a < b then true
    else if b < a then false
    else charListLe as bs

/-- Lexicographic comparison of strings. -/
def strLe (a b : String) : Bool :=
  charListLe a.data b.data

/-- Sorts a list by a String key, lexicographically, with insertion sort. -/
def sortByName {α : Type} (f : α → String) (l : List α) : List α :=
  List.insertionSort (fun a b => strLe (f a) (f b) = true) l

/-- Identities sorted by name. -/
def sortIdents : List Identity → List Identity :=
  sortByName Identity.name

/-- Permission templates sorted by name. -/
def sortPerms : List PermissionTemplate → List PermissionTemplate :=
  sortByName PermissionTemplate.name

/-- Strings sorted lexicographically. -/
def sortStrings : List String → List String :=
  sortByName id

/-- Looks a permission template up by name. -/
def lookupPerm (perms : List PermissionTemplate) (ref : String) : Option PermissionTemplate :=
  perms.find? (fun p => decide (p.name = ref))

/-- Omits an empty allow/deny array instead of emitting an empty list. -/
def omitEmpty (l : List String) : Option (List String) :=
  match l with
  | [] => none
  | _ :: _ => some l

/-- Modelled from the spec: renders one Identity into a user record,
resolving its permissionRef; an unresolved reference is a DanglingReference
error naming the identity and the missing template (section 4.2, step 2-3). -/
def renderUser (perms : List PermissionTemplate) (i : Identity) : Except GenError UserRecord :=
  match i.permissionRef with
  | none => Except.ok { username := i.name, password := i.credential, permissions := none }
  | some ref =>
    match lookupPerm perms ref with
    | none => Except.error { identity := i.name, missingTemplate := ref }
    | some p =>
      Except.ok { username := i.name, password := i.credential,
                  permissions := some { pubAllow := omitEmpty p.publishAllow,
                                        pubDeny := omitEmpty p.publishDeny,
                                        subAllow := omitEmpty p.subscribeAllow,
                                        subDeny := omitEmpty p.subscribeDeny } }

/-- Renders a list of identities in order, stopping at the first
DanglingReference. -/
def renderUsers (perms : List PermissionTemplate) : List Identity → Except GenError (List UserRecord)
  | [] => Except.ok []
  | i :: rest =>
    match renderUser perms i with
    | Except.error e => Except.error e
    | Except.ok u =>
      match renderUsers perms rest with
      | Except.error e => Except.error e
      | Except.ok us => Except.ok (u :: us)

/-- Renders the per-account user lists, one entry per account name, each
containing exactly the identities whose accountRef equals that name. -/
def renderAccounts (perms : List PermissionTemplate) (ids : List Identity) :
    List String → Except GenError (List (String × List UserRecord))
  | [] => Except.ok []
  | a :: rest =>
    match renderUsers perms (ids.filter (fun i => decide (i.accountRef = some a))) with
    | Except.error e => Except.error e
    | Except.ok us =>
      match renderAccounts perms ids rest with
      | Except.error e => Except.error e
      | Except.ok others => Except.ok ((a, us) :: others)

/-- The distinct account names referenced by a view, sorted; accounts are
derived from identity membership, not stored separately. -/
def accountNames (ids : List Identity) : List String :=
  sortStrings (ids.filterMap Identity.accountRef).dedup

/-- Modelled from the spec: the Config Generator on an already sorted view
(section 4.2): group identities by accountRef, resolve references, render,
and emit either the flat shape or the accounts shape. -/
def generateSorted (ids : List Identity) (perms : List PermissionTemplate) :
    Except GenError AuthDocument :=
  match accountNames ids with
  | [] =>
    match renderUsers perms ids with
    | Except.error e => Except.error e
    | Except.ok users => Except.ok (AuthDocument.flat users)
  | a :: rest =>
    match renderUsers perms (ids.filter (fun i => decide (i.accountRef = none))) with
    | Except.error e => Except.error e
    | Except.ok globals =>
      match renderAccounts perms ids (a :: rest) with
      | Except.error e => Except.error e
      | Except.ok accounts => Except.ok (AuthDocument.withAccounts accounts globals)

/-- Modelled from the spec: the Config Generator, a pure deterministic
transform of a Registry view; both input lists are sorted by name first so
the output never depends on insertion order (section 4.2, step 5). -/
def generate (r : Registry) : Except GenError AuthDocument :=
  generateSorted (sortIdents r.identities) (sortPerms r.permissions)

/-- Serialization of a string list. -/
def serializeList (l : List String) : String :=
  "[" ++ String.intercalate "," l ++ "]"

/-- Serialization of an optional allow/deny array; an omitted array
contributes no bytes. -/
def serializeOptStrs (key : String) : Option (List String) → String
  | none => ""
  | some l => key ++ "=" ++ serializeList l ++ ";"

/-- Serialization of a permissions block. -/
def serializePermBlock (pb : PermBlock) : String :=
  "(" ++ serializeOptStrs "publish.allow" pb.pubAllow
      ++ serializeOptStrs "publish.deny" pb.pubDeny
      ++ serializeOptStrs "subscribe.allow" pb.subAllow
      ++ serializeOptStrs "subscribe.deny" pb.subDeny ++ ")"

/-- Serialization of one user record. -/
def serializeUser (u : UserRecord) : String :=
  "(user=" ++ u.username ++ ";password=" ++ u.password ++
    (match u.permissions with
     | none => ""
     | some pb => ";permissions=" ++ serializePermBlock pb) ++ ")"

/-- Serialization of a user list. -/
def serializeUsers (us : List UserRecord) : String :=
  serializeList (us.map serializeUser)

/-- Byte rendering of an Authorization Document. -/
def serializeDoc : AuthDocument → String
  | AuthDocument.flat users => "(users=" ++ serializeUsers users ++ ")"
  | AuthDocument.withAccounts accounts users =>
      "(accounts=" ++
        serializeList (accounts.map (fun ac => "(" ++ ac.1 ++ "=" ++ serializeUsers ac.2 ++ ")")) ++
        ";users=" ++ serializeUsers users ++ ")"

/-- Byte rendering of a generation outcome. -/
def serializeResult : Except GenError AuthDocument → String
  | Except.error e => "error(DanglingReference," ++ e.identity ++ "," ++ e.missingTemplate ++ ")"
  | Except.ok d => serializeDoc d

/-- Byte rendering of the live artifact location (empty when nothing has been
published yet). -/
def serializeOptDoc : Option AuthDocument → String
  | none => ""
  | some d => serializeDoc d

/-- Modelled from the spec: upsertIdentity creates or replaces an Identity by
name, with no existence check of permissionRef or accountRef (section 4.1). -/
def upsertIdentity (r : Registry) (i : Identity) : Registry :=
  { r with identities := i :: r.identities.filter (fun j => decide (j.name ≠ i.name)) }

/-- Modelled from the spec: upsertPermission creates or replaces a Permission
Template by name (section 4.1). -/
def upsertPermission (r : Registry) (p : PermissionTemplate) : Registry :=
  { r with permissions := p :: r.permissions.filter (fun q => decide (q.name ≠ p.name)) }

/-- Modelled from the spec: removes an identity by name from future
generations (section 4.1). -/
def deleteIdentityReg (r : Registry) (n : String) : Registry :=
  { r with identities := r.identities.filter (fun i => decide (i.name ≠ n)) }

/-- Modelled from the spec: removes a permission template by name from future
generations (section 4.1). -/
def deletePermissionReg (r : Registry) (n : String) : Registry :=
  { r with permissions := r.permissions.filter (fun p => decide (p.name ≠ n)) }

/-- Outcome of a Snapshot Store write. -/
inductive SnapResult where
  | created
  | alreadyExists
deriving DecidableEq, Repr

/-- Modelled from the spec: createSnapshot of the Snapshot Store fails with
AlreadyExists when the name is already known and never alters the existing
snapshot; otherwise it persists the document under the name (section 4.3).
The returned store is the store after the call. -/
def createSnapshot (store : List (String × AuthDocument)) (name : String) (doc : AuthDocument) :
    SnapResult × List (String × AuthDocument) :=
  match store.find? (fun p => decide (p.1 = name)) with
  | some _ => (SnapResult.alreadyExists, store)
  | none => (SnapResult.created, (name, doc) :: store)

/-- Modelled from the spec: getSnapshot returns the immutable stored document
or none when absent (section 4.3). -/
def getSnapshot (store : List (String × AuthDocument)) (name : String) : Option AuthDocument :=
  (store.find? (fun p => decide (p.1 = name))).map Prod.snd

/-- Result of a Store Facade operation. -/
inductive OpResult where
  | ok
  | errNotFound
  | errAlreadyExists
  | errDangling (identity missingTemplate : String)
deriving DecidableEq, Repr

/-- Modelled from the spec: full service state, the Registry plus the
Snapshot Store plus the Publish Pointer and the live artifact (sections 2-4). -/
structure StoreState where
  registry : Registry
  snapshots : List (String × AuthDocument)
  currentSnapshotName : Option String
  liveDoc : Option AuthDocument
deriving DecidableEq, Repr

/-- Modelled from the spec: the facade upsert of an identity, which cannot
fail on referential validity (sections 4.1 and 9). -/
def upsertIdentityOp (s : StoreState) (i : Identity) : OpResult × StoreState :=
  (OpResult.ok, { s with registry := upsertIdentity s.registry i })

/-- Modelled from the spec: the facade upsert of a permission template. -/
def upsertPermissionOp (s : StoreState) (p : PermissionTemplate) : OpResult × StoreState :=
  (OpResult.ok, { s with registry := upsertPermission s.registry p })

/-- Registry mutations as the spec lists them (section 4.1). -/
inductive RegMutation where
  | upsertIdent (i : Identity)
  | upsertPerm (p : PermissionTemplate)
  | deleteIdent (n : String)
  | deletePerm (n : String)

/-- Applies one Registry mutation to the service state; only the Registry
component is touched. -/
def applyMutation (s : StoreState) (m : RegMutation) : StoreState :=
  match m with
  | RegMutation.upsertIdent i => { s with registry := upsertIdentity s.registry i }
  | RegMutation.upsertPerm p => { s with registry := upsertPermission s.registry p }
  | RegMutation.deleteIdent n => { s with registry := deleteIdentityReg s.registry n }
  | RegMutation.deletePerm n => { s with registry := deletePermissionReg s.registry n }

/-- Modelled from the spec: snapshot creation on the facade runs the Config
Generator on the captured Registry view first (section 2 control flow);
a DanglingReference aborts before anything is persisted, then the Snapshot
Store write refuses duplicate names (sections 4.3 and 7). -/
def takeSnapshot (s : StoreState) (name : String) : OpResult × StoreState :=
  match generate s.registry with
  | Except.error e => (OpResult.errDangling e.identity e.missingTemplate, s)
  | Except.ok doc =>
    match createSnapshot s.snapshots name doc with
    | (SnapResult.alreadyExists, _) => (OpResult.errAlreadyExists, s)
    | (SnapResult.created, store2) => (OpResult.ok, { s with snapshots := store2 })

/-- Modelled from the spec: publish repoints the Publish Pointer to a known
snapshot and atomically replaces the live artifact with that snapshot
content; an unknown name is NotFound and changes nothing (section 4.4). -/
def publishOp (s : StoreState) (name : String) : OpResult × StoreState :=
  match getSnapshot s.snapshots name with
  | none => (OpResult.errNotFound, s)
  | some doc =>
    (OpResult.ok, { s with currentSnapshotName := some name, liveDoc := some doc })

/-- Modelled from the spec: currentName of the Publisher, none standing for
the sentinel value before any publish (section 4.4). -/
def currentNameOp (s : StoreState) : Option String :=
  s.currentSnapshotName

/-- Modelled from the spec: durable-storage state seen by concurrent readers
during a publish, a staging location plus the live location (section 4.4). -/
structure PubFS where
  staging : Option String
  live : Option String
deriving DecidableEq, Repr

/-- Initial durable state: nothing staged, nothing published yet. -/
def initFS : PubFS :=
  { staging := none, live := none }

/-- Modelled from the spec: the observable steps of the atomic-rename publish
discipline (section 4.4).  The parameter docs is the set of complete
serialized snapshot documents.  A write step leaves any portion of a
document at the staging location; the rename step is a single atomic switch
of the live location and is performed only once the staging location holds a
complete document. -/
inductive PubStep (docs : List String) : PubFS → PubFS → Prop
  | writeStaging (s : PubFS) (b : String) (k : Nat) (hb : b ∈ docs) :
      PubStep docs s { s with staging := some (b.take k) }
  | renameOverLive (s : PubFS) (b : String) (hb : b ∈ docs) (hs : s.staging = some b) :
      PubStep docs s { staging := none, live := some b }

/-- A durable state reachable from the initial state by publish steps. -/
def ReachableFS (docs : List String) (s : PubFS) : Prop :=
  Relation.ReflTransGen (PubStep docs) initFS s

/-- The live location is empty or holds one complete document, never a
mixture or an incomplete write. -/
def LiveComplete (docs : List String) (s : PubFS) : Prop :=
  s.live = none ∨ ∃ b ∈ docs, s.live = some b

/-! Order lemmas for the lexicographic comparator. -/

theorem charListLe_total : ∀ as bs, charListLe as bs = true ∨ charListLe bs as = true := by
  intro as
  induction as with
  | nil => intro bs; left; rfl
  | cons a as ih =>
    intro bs
    cases bs with
    | nil => right; rfl
    | cons b bs =>
      by_cases hab : a < b
      · left
        simp [charListLe, hab]
      · by_cases hba : b < a
        · right
          simp [charListLe, hba]
        · rcases ih bs with h | h
          · left
            simp [charListLe, hab, hba, h]
          · right
            simp [charListLe, hab, hba, h]

theorem charListLe_trans : ∀ as bs cs, charListLe as bs = true → charListLe bs cs = true →
    charListLe as cs = true := by
  intro as
  induction as with
  | nil => intro bs cs _ _; rfl
  | cons a as ih =>
    intro bs cs h1 h2
    cases bs with
    | nil => simp [charListLe] at h1
    | cons b bs =>
      cases cs with
      | nil => simp [charListLe] at h2
      | cons c cs =>
        simp only [charListLe] at h1 h2 ⊢
        by_cases hab : a < b
        · by_cases hbc : b < c
          · have hac : a < c := lt_trans hab hbc
            simp [hac]
          · by_cases hcb : c < b
            · simp [hab, hbc, hcb] at h2
            · have hbc2 : b = c := le_antisymm (not_lt.mp hcb) (not_lt.mp hbc)
              subst hbc2
              simp [hab]
        · by_cases hba : b < a
          · simp [hab, hba] at h1
          · have hab2 : a = b := le_antisymm (not_lt.mp hba) (not_lt.mp hab)
            subst hab2
            by_cases hbc : a < c
            · simp [hbc]
            · by_cases hcb : c < a
              · simp [hbc, hcb] at h2
              · simp [hab, hba] at h1
                simp [hbc, hcb] at h2 ⊢
                exact ih _ _ h1 h2

theorem charListLe_antisymm : ∀ as bs, charListLe as bs = true → charListLe bs as = true →
    as = bs := by
  intro as
  induction as with
  | nil =>
    intro bs _ h2
    cases bs with
    | nil => rfl
    | cons b bs => simp [charListLe] at h2
  | cons a as ih =>
    intro bs h1 h2
    cases bs with
    | nil => simp [charListLe] at h1
    | cons b bs =>
      simp only [charListLe] at h1 h2
      by_cases hab : a < b
      · have hba : ¬ b < a := lt_asymm hab
        simp [hab, hba] at h2
      · by_cases hba : b < a
        · simp [hab, hba] at h1
        · have hab2 : a = b := le_antisymm (not_lt.mp hba) (not_lt.mp hab)
          subst hab2
          simp [hab, hba] at h1 h2
          rw [ih bs h1 h2]

theorem strLe_total (a b : String) : strLe a b = true ∨ strLe b a = true :=
  charListLe_total a.data b.data

theorem strLe_trans {a b c : String} (h1 : strLe a b = true) (h2 : strLe b c = true) :
    strLe a c = true :=
  charListLe_trans a.data b.data c.data h1 h2

theorem strLe_antisymm {a b : String} (h1 : strLe a b = true) (h2 : strLe b a = true) :
    a = b := by
  cases a with
  | mk da =>
    cases b with
    | mk db =>
      have hd : da = db := charListLe_antisymm da db h1 h2
      rw [hd]

/-- Sorting commutes with membership. -/
theorem mem_sortByName {α : Type} {f : α → String} {l : List α} {x : α} :
    x ∈ sortByName f l ↔ x ∈ l :=
  (List.perm_insertionSort _ l).mem_iff

/-- Sorting by a key without duplicate keys gives the same result on any two
permutations of the input: the canonical-order property behind determinism. -/
theorem sortByName_eq_of_perm {α : Type} (f : α → String) (l1 l2 : List α)
    (hp : List.Perm l1 l2) (hnd : (l1.map f).Nodup) :
    sortByName f l1 = sortByName f l2 := by
  haveI hts : IsTrans α (fun a b => strLe (f a) (f b) = true) :=
    ⟨fun a b c hab hbc => strLe_trans hab hbc⟩
  haveI hto : IsTotal α (fun a b => strLe (f a) (f b) = true) :=
    ⟨fun a b => strLe_total (f a) (f b)⟩
  haveI has : IsAntisymm α (fun a b => strLe (f a) (f b) = true ∧ f a ≠ f b) :=
    ⟨fun a b h1 h2 => absurd (strLe_antisymm h1.1 h2.1) h1.2⟩
  have hperm : List.Perm (sortByName f l1) (sortByName f l2) :=
    ((List.perm_insertionSort _ l1).trans hp).trans (List.perm_insertionSort _ l2).symm
  have hnd2 : (l2.map f).Nodup := ((hp.map f).nodup_iff).mp hnd
  have key : ∀ l : List α, (l.map f).Nodup →
      List.Sorted (fun a b => strLe (f a) (f b) = true ∧ f a ≠ f b) (sortByName f l) := by
    intro l hl
    have hs : List.Sorted (fun a b => strLe (f a) (f b) = true) (sortByName f l) :=
      List.sorted_insertionSort _ l
    have hnds : ((sortByName f l).map f).Nodup :=
      (((List.perm_insertionSort (fun a b => strLe (f a) (f b) = true) l).map f).nodup_iff).mpr hl
    have hne : (sortByName f l).Pairwise (fun a b => f a ≠ f b) :=
      List.pairwise_map.mp hnds
    exact hs.and hne
  exact List.eq_of_perm_of_sorted hperm (key l1 hnd) (key l2 hnd2)

/-! Facts about permission lookup and user rendering. -/

theorem lookupPerm_eq_none_iff {perms : List PermissionTemplate} {ref : String} :
    lookupPerm perms ref = none ↔ ∀ p ∈ perms, p.name ≠ ref := by
  unfold lookupPerm
  rw [List.find?_eq_none]
  simp

theorem renderUser_ok_username {perms : List PermissionTemplate} {i : Identity} {u : UserRecord}
    (h : renderUser perms i = Except.ok u) : u.username = i.name := by
  unfold renderUser at h
  split at h
  · cases h
    rfl
  · split at h
    · cases h
    · cases h
      rfl

theorem renderUser_error_spec {perms : List PermissionTemplate} {i : Identity} {e : GenError}
    (h : renderUser perms i = Except.error e) :
    e.identity = i.name ∧ i.permissionRef = some e.missingTemplate ∧
      lookupPerm perms e.missingTemplate = none := by
  unfold renderUser at h
  split at h
  · cases h
  · rename_i ref hpr
    split at h
    · rename_i hl
      cases h
      exact ⟨rfl, hpr, hl⟩
    · cases h

theorem renderUser_error_of_dangling {perms : List PermissionTemplate} {i : Identity}
    {ref : String} (h1 : i.permissionRef = some ref) (h2 : lookupPerm perms ref = none) :
    renderUser perms i = Except.error { identity := i.name, missingTemplate := ref } := by
  unfold renderUser
  split
  · rename_i hpr
    rw [h1] at hpr
    cases hpr
  · rename_i ref2 hpr
    rw [h1] at hpr
    cases hpr
    split
    · rfl
    · rename_i p hl
      rw [h2] at hl
      cases hl

theorem renderUsers_ok_names {perms : List PermissionTemplate} :
    ∀ {l : List Identity} {us : List UserRecord}, renderUsers perms l = Except.ok us →
      ∀ n, (∃ u ∈ us, u.username = n) ↔ (∃ i ∈ l, i.name = n) := by
  intro l
  induction l with
  | nil =>
    intro us h n
    cases h
    simp
  | cons i rest ih =>
    intro us h n
    unfold renderUsers at h
    cases hr : renderUser perms i with
    | error e =>
      rw [hr] at h
      cases h
    | ok u =>
      rw [hr] at h
      cases hrest : renderUsers perms rest with
      | error e =>
        rw [hrest] at h
        cases h
      | ok us0 =>
        rw [hrest] at h
        cases h
        have hu : u.username = i.name := renderUser_ok_username hr
        have ihn := ih hrest n
        simp only [List.mem_cons]
        constructor
        · rintro ⟨v, hv | hv, hvn⟩
          · subst hv
            exact ⟨i, Or.inl rfl, by rw [← hu]; exact hvn⟩
          · obtain ⟨j, hj, hjn⟩ := ihn.mp ⟨v, hv, hvn⟩
            exact ⟨j, Or.inr hj, hjn⟩
        · rintro ⟨j, hj | hj, hjn⟩
          · subst hj
            exact ⟨u, Or.inl rfl, hu.trans hjn⟩
          · obtain ⟨v, hv, hvn⟩ := ihn.mpr ⟨j, hj, hjn⟩
            exact ⟨v, Or.inr hv, hvn⟩

theorem renderUsers_error_spec {perms : List PermissionTemplate} :
    ∀ {l : List Identity} {e : GenError}, renderUsers perms l = Except.error e →
      (∃ i ∈ l, i.name = e.identity ∧ i.permissionRef = some e.missingTemplate) ∧
        lookupPerm perms e.missingTemplate = none := by
  intro l
  induction l with
  | nil =>
    intro e h
    cases h
  | cons i rest ih =>
    intro e h
    unfold renderUsers at h
    cases hr : renderUser perms i with
    | error e2 =>
      rw [hr] at h
      cases h
      obtain ⟨hn, hpr, hl⟩ := renderUser_error_spec hr
      exact ⟨⟨i, List.mem_cons_self i rest, hn.symm, hpr⟩, hl⟩
    | ok u =>
      rw [hr] at h
      cases hrest : renderUsers perms rest with
      | error e2 =>
        rw [hrest] at h
        cases h
        obtain ⟨⟨j, hj, hjn⟩, hl⟩ := ih hrest
        exact ⟨⟨j, List.mem_cons_of_mem i hj, hjn⟩, hl⟩
      | ok us0 =>
        rw [hrest] at h
        cases h

theorem renderUsers_error_of_dangling {perms : List PermissionTemplate} :
    ∀ {l : List Identity},
      (∃ i ∈ l, ∃ ref, i.permissionRef = some ref ∧ lookupPerm perms ref = none) →
      ∃ e, renderUsers perms l = Except.error e := by
  intro l
  induction l with
  | nil =>
    rintro ⟨i, hi, _⟩
    cases hi
  | cons i rest ih =>
    rintro ⟨j, hj, ref, h1, h2⟩
    unfold renderUsers
    cases hr : renderUser perms i with
    | error e => exact ⟨e, rfl⟩
    | ok u =>
      rcases List.mem_cons.mp hj with hj1 | hj2
      · subst hj1
        rw [renderUser_error_of_dangling h1 h2] at hr
        cases hr
      · obtain ⟨e, he⟩ := ih ⟨j, hj2, ref, h1, h2⟩
        rw [he]
        exact ⟨e, rfl⟩

/-! Facts about account grouping. -/

theorem mem_accountNames {ids : List Identity} {a : String} :
    a ∈ accountNames ids ↔ ∃ i ∈ ids, i.accountRef = some a := by
  unfold accountNames sortStrings
  rw [mem_sortByName, List.mem_dedup, List.mem_filterMap]

theorem accountNames_eq_nil_iff {ids : List Identity} :
    accountNames ids = [] ↔ ∀ i ∈ ids, i.accountRef = none := by
  constructor
  · intro h i hi
    cases har : i.accountRef with
    | none => rfl
    | some a =>
      have hmem : a ∈ accountNames ids := mem_accountNames.mpr ⟨i, hi, har⟩
      rw [h] at hmem
      cases hmem
  · intro h
    have hfm : ids.filterMap Identity.accountRef = [] := by
      rw [List.filterMap_eq_nil_iff]
      exact h
    unfold accountNames
    rw [hfm]
    rfl

theorem renderAccounts_ok_spec {perms : List PermissionTemplate} {ids : List Identity} :
    ∀ {accts : List String} {accounts : List (String × List UserRecord)},
      renderAccounts perms ids accts = Except.ok accounts →
      (∀ a us, (a, us) ∈ accounts → a ∈ accts ∧
        renderUsers perms (ids.filter (fun i => decide (i.accountRef = some a))) =
          Except.ok us) ∧
      (∀ a, a ∈ accts → ∃ us, (a, us) ∈ accounts) := by
  intro accts
  induction accts with
  | nil =>
    intro accounts h
    cases h
    constructor
    · intro a us hmem
      cases hmem
    · intro a ha
      cases ha
  | cons b rest ih =>
    intro accounts h
    unfold renderAccounts at h
    cases hr : renderUsers perms (ids.filter (fun i => decide (i.accountRef = some b))) with
    | error e =>
      rw [hr] at h
      cases h
    | ok us0 =>
      rw [hr] at h
      cases hrest : renderAccounts perms ids rest with
      | error e =>
        rw [hrest] at h
        cases h
      | ok others =>
        rw [hrest] at h
        cases h
        obtain ⟨ih1, ih2⟩ := ih hrest
        constructor
        · intro a us hmem
          rcases List.mem_cons.mp hmem with heq | hmem2
          · have h1 : a = b := congrArg Prod.fst heq
            have h2 : us = us0 := congrArg Prod.snd heq
            subst h1
            subst h2
            exact ⟨List.mem_cons_self a rest, hr⟩
          · obtain ⟨hin, hrw⟩ := ih1 a us hmem2
            exact ⟨List.mem_cons_of_mem b hin, hrw⟩
        · intro a ha
          rcases List.mem_cons.mp ha with heq | hin
          · subst heq
            exact ⟨us0, List.mem_cons_self (a, us0) others⟩
          · obtain ⟨us, hus⟩ := ih2 a hin
            exact ⟨us, List.mem_cons_of_mem (b, us0) hus⟩

theorem renderAccounts_error_spec {perms : List PermissionTemplate} {ids : List Identity} :
    ∀ {accts : List String} {e : GenError}, renderAccounts perms ids accts = Except.error e →
      (∃ i ∈ ids, i.name = e.identity ∧ i.permissionRef = some e.missingTemplate) ∧
        lookupPerm perms e.missingTemplate = none := by
  intro accts
  induction accts with
  | nil =>
    intro e h
    cases h
  | cons b rest ih =>
    intro e h
    unfold renderAccounts at h
    cases hr : renderUsers perms (ids.filter (fun i => decide (i.accountRef = some b))) with
    | error e2 =>
      rw [hr] at h
      cases h
      obtain ⟨⟨j, hj, hjspec⟩, hl⟩ := renderUsers_error_spec hr
      exact ⟨⟨j, (List.mem_filter.mp hj).1, hjspec⟩, hl⟩
    | ok us0 =>
      rw [hr] at h
      cases hrest : renderAccounts perms ids rest with
      | error e2 =>
        rw [hrest] at h
        cases h
        exact ih hrest
      | ok others =>
        rw [hrest] at h
        cases h

theorem renderAccounts_error_of_dangling {perms : List PermissionTemplate} {ids : List Identity} :
    ∀ {accts : List String} {a : String}, a ∈ accts →
      (∃ i ∈ ids.filter (fun i => decide (i.accountRef = some a)), ∃ ref,
        i.permissionRef = some ref ∧ lookupPerm perms ref = none) →
      ∃ e, renderAccounts perms ids accts = Except.error e := by
  intro accts
  induction accts with
  | nil =>
    intro a ha _
    cases ha
  | cons b rest ih =>
    intro a ha hd
    unfold renderAccounts
    cases hr : renderUsers perms (ids.filter (fun i => decide (i.accountRef = some b))) with
    | error e => exact ⟨e, rfl⟩
    | ok us0 =>
      rcases List.mem_cons.mp ha with heq | hin
      · subst heq
        obtain ⟨e, he⟩ := renderUsers_error_of_dangling hd
        rw [he] at hr
        cases hr
      · obtain ⟨e, he⟩ := ih hin hd
        refine ⟨e, ?_⟩
        simp only [he]

/-! Facts about the generator. -/

theorem generateSorted_error_spec {ids : List Identity} {perms : List PermissionTemplate}
    {e : GenError} (h : generateSorted ids perms = Except.error e) :
    (∃ i ∈ ids, i.name = e.identity ∧ i.permissionRef = some e.missingTemplate) ∧
      lookupPerm perms e.missingTemplate = none := by
  unfold generateSorted at h
  split at h
  · cases hr : renderUsers perms ids with
    | error e2 =>
      rw [hr] at h
      cases h
      exact renderUsers_error_spec hr
    | ok users =>
      rw [hr] at h
      cases h
  · cases hg : renderUsers perms (ids.filter (fun i => decide (i.accountRef = none))) with
    | error e2 =>
      rw [hg] at h
      cases h
      obtain ⟨⟨j, hj, hjspec⟩, hl⟩ := renderUsers_error_spec hg
      exact ⟨⟨j, (List.mem_filter.mp hj).1, hjspec⟩, hl⟩
    | ok globals =>
      rw [hg] at h
      rename_i a rest heq
      cases hra : renderAccounts perms ids (a :: rest) with
      | error e2 =>
        rw [hra] at h
        cases h
        exact renderAccounts_error_spec hra
      | ok accounts =>
        rw [hra] at h
        cases h

theorem generateSorted_error_of_dangling {ids : List Identity} {perms : List PermissionTemplate}
    (h : ∃ i ∈ ids, ∃ ref, i.permissionRef = some ref ∧ lookupPerm perms ref = none) :
    ∃ e, generateSorted ids perms = Except.error e := by
  obtain ⟨i, hi, ref, h1, h2⟩ := h
  unfold generateSorted
  cases hacc : accountNames ids with
  | nil =>
    obtain ⟨e, he⟩ := renderUsers_error_of_dangling ⟨i, hi, ref, h1, h2⟩
    refine ⟨e, ?_⟩
    simp only [he]
  | cons a rest =>
    cases hg : renderUsers perms (ids.filter (fun j => decide (j.accountRef = none))) with
    | error e =>
      refine ⟨e, ?_⟩
      simp only [hg]
    | ok globals =>
      cases har : i.accountRef with
      | none =>
        have hmemf : i ∈ ids.filter (fun j => decide (j.accountRef = none)) :=
          List.mem_filter.mpr ⟨hi, by rw [har]; simp⟩
        obtain ⟨e, he⟩ := renderUsers_error_of_dangling ⟨i, hmemf, ref, h1, h2⟩
        rw [he] at hg
        cases hg
      | some a2 =>
        have hmema : a2 ∈ accountNames ids := mem_accountNames.mpr ⟨i, hi, har⟩
        rw [hacc] at hmema
        have hmemf : i ∈ ids.filter (fun j => decide (j.accountRef = some a2)) :=
          List.mem_filter.mpr ⟨hi, by rw [har]; simp⟩
        obtain ⟨e, he⟩ :=
          renderAccounts_error_of_dangling hmema ⟨i, hmemf, ref, h1, h2⟩
        refine ⟨e, ?_⟩
        simp only [hg, he]

/-! Claim theorems. -/

/-- Claim C9: calling Shutdown on a server on which Run has never been called
invokes the nil quit function and panics; once Run has installed the
cancellation function, Shutdown returns normally. -/
theorem c9_shutdown_before_run_panics (o : Option Options) (s : Server) (f : Unit → Unit) :
    (NewServer o).Shutdown =
      GoOutcome.panicked "invalid memory address or nil pointer dereference" ∧
    (s.installQuit f).Shutdown = GoOutcome.ret (s.installQuit f) :=
  ⟨rfl, rfl⟩

/-- Claim C10: Run blocks until the derived context is done and then returns
exactly the error of that context, which is never nil; when the quit function
installed by Run (invoked by Shutdown) caused the cancellation, the result
is context.Canceled. -/
theorem c10_run_returns_ctx_error :
    runReturn none = none ∧
    (∀ c, runReturn (some c) = some (some (derivedCtxErr c))) ∧
    (∀ c, runReturn (some c) ≠ some none) ∧
    runReturn (some DoneCause.quitCalled) = some (some CtxErr.canceled) := by
  refine ⟨rfl, fun c => rfl, fun c h => ?_, rfl⟩
  simp [runReturn] at h

/-- Claim C5: snapshots are immutable: any sequence of Registry mutations
(upserts or deletes of identities or permission templates) leaves the
content returned by getSnapshot unchanged, for every snapshot name. -/
theorem c5_snapshots_immutable (ms : List RegMutation) (s : StoreState) (n : String) :
    getSnapshot (ms.foldl applyMutation s).snapshots n = getSnapshot s.snapshots n := by
  have hsn : ∀ (s2 : StoreState) (m : RegMutation),
      (applyMutation s2 m).snapshots = s2.snapshots := by
    intro s2 m
    cases m <;> rfl
  induction ms generalizing s with
  | nil => rfl
  | cons m rest ih =>
    simp only [List.foldl_cons]
    rw [ih (applyMutation s m), hsn]

/-- Claim C7: an identity upsert succeeds regardless of whether its
permission or account references resolve, a permission upsert always
succeeds, and the two upserts commute, so identities and permission
templates may be upserted in any order with the same resulting state. -/
theorem c7_upsert_order_independent (s : StoreState) (i : Identity) (p : PermissionTemplate) :
    (upsertIdentityOp s i).1 = OpResult.ok ∧
    (upsertPermissionOp s p).1 = OpResult.ok ∧
    (upsertIdentityOp (upsertPermissionOp s p).2 i).2 =
      (upsertPermissionOp (upsertIdentityOp s i).2 p).2 := by
  refine ⟨rfl, rfl, ?_⟩
  cases s with
  | mk r snaps cur live =>
    cases r with
    | mk ids perms => rfl

/-- Claim C4: creating a snapshot under a name that already exists fails with
AlreadyExists and leaves the store, in particular the previously stored
snapshot, unchanged. -/
theorem c4_create_duplicate_fails (store : List (String × AuthDocument)) (n : String)
    (d0 d : AuthDocument) (h : getSnapshot store n = some d0) :
    createSnapshot store n d = (SnapResult.alreadyExists, store) ∧
    getSnapshot (createSnapshot store n d).2 n = some d0 := by
  have hf : ∃ p, store.find? (fun q => decide (q.1 = n)) = some p := by
    unfold getSnapshot at h
    cases hq : store.find? (fun q => decide (q.1 = n)) with
    | none =>
      rw [hq] at h
      cases h
    | some p => exact ⟨p, rfl⟩
  obtain ⟨p, hp⟩ := hf
  have hc : createSnapshot store n d = (SnapResult.alreadyExists, store) := by
    unfold createSnapshot
    rw [hp]
  refine ⟨hc, ?_⟩
  rw [hc]
  exact h

/-- Demonstration store holding one snapshot, for the C4 witness. -/
def storeW4 : List (String × AuthDocument) :=
  [("hello", AuthDocument.flat [])]

/-- Another document one could try to store under the same name. -/
def docW4 : AuthDocument :=
  AuthDocument.flat [{ username := "x", password := "y", permissions := none }]

theorem c4_witness :
    getSnapshot storeW4 "hello" = some (AuthDocument.flat []) ∧
    (createSnapshot storeW4 "hello" docW4 = (SnapResult.alreadyExists, storeW4) ∧
      getSnapshot (createSnapshot storeW4 "hello" docW4).2 "hello" =
        some (AuthDocument.flat [])) :=
  ⟨by decide, c4_create_duplicate_fails storeW4 "hello" (AuthDocument.flat []) docW4 (by decide)⟩

/-- Claim C8: publishing an already published snapshot name a second time is
idempotent: the second publish succeeds and leaves the state unchanged,
currentName stays at that name, and the live artifact stays byte-identical. -/
theorem c8_republish_idempotent (s : StoreState) (n : String)
    (h : (publishOp s n).1 = OpResult.ok) :
    publishOp (publishOp s n).2 n = (OpResult.ok, (publishOp s n).2) ∧
    currentNameOp (publishOp (publishOp s n).2 n).2 = some n ∧
    serializeOptDoc (publishOp (publishOp s n).2 n).2.liveDoc =
      serializeOptDoc (publishOp s n).2.liveDoc := by
  cases hg : getSnapshot s.snapshots n with
  | none =>
    unfold publishOp at h
    rw [hg] at h
    cases h
  | some doc =>
    have h1 : publishOp s n =
        (OpResult.ok, { s with currentSnapshotName := some n, liveDoc := some doc }) := by
      unfold publishOp
      rw [hg]
    have hg2 : getSnapshot
        ({ s with currentSnapshotName := some n, liveDoc := some doc } : StoreState).snapshots
        n = some doc := hg
    have h2 : publishOp ({ s with currentSnapshotName := some n, liveDoc := some doc }) n =
        (OpResult.ok, { s with currentSnapshotName := some n, liveDoc := some doc }) := by
      unfold publishOp
      rw [hg2]
    rw [h1]
    refine ⟨h2, ?_, ?_⟩
    · show currentNameOp
        (publishOp { s with currentSnapshotName := some n, liveDoc := some doc } n).2 = some n
      rw [h2]
      rfl
    · show serializeOptDoc
          (publishOp { s with currentSnapshotName := some n, liveDoc := some doc } n).2.liveDoc =
        serializeOptDoc
          ({ s with currentSnapshotName := some n, liveDoc := some doc } : StoreState).liveDoc
      rw [h2]

/-- Demonstration state holding one snapshot, for the C8 witness. -/
def stateW8 : StoreState :=
  { registry := { identities := [], permissions := [] },
    snapshots := [("hello", AuthDocument.flat [])],
    currentSnapshotName := none, liveDoc := none }

theorem c8_witness :
    (publishOp stateW8 "hello").1 = OpResult.ok ∧
    (publishOp (publishOp stateW8 "hello").2 "hello" =
        (OpResult.ok, (publishOp stateW8 "hello").2) ∧
      currentNameOp (publishOp (publishOp stateW8 "hello").2 "hello").2 = some "hello" ∧
      serializeOptDoc (publishOp (publishOp stateW8 "hello").2 "hello").2.liveDoc =
        serializeOptDoc (publishOp stateW8 "hello").2.liveDoc) :=
  ⟨by decide, c8_republish_idempotent stateW8 "hello" (by decide)⟩

/-- Claim C1: along every run of the staged-write/atomic-rename publish
discipline, the live location holds either nothing or one complete document,
and a single step either leaves the live content untouched or switches it to
a complete document; a reader never observes a half-written or mixed
configuration at the live location. -/
theorem c1_publish_atomic (docs : List String) (s : PubFS) (h : ReachableFS docs s) :
    LiveComplete docs s ∧
    ∀ s2, PubStep docs s s2 → s2.live = s.live ∨ ∃ b ∈ docs, s2.live = some b := by
  constructor
  · unfold ReachableFS at h
    induction h with
    | refl => left; rfl
    | tail hsteps hstep ih =>
      cases hstep with
      | writeStaging b k hb => exact ih
      | renameOverLive b hb hs =>
        right
        exact ⟨b, hb, rfl⟩
  · intro s2 hstep
    cases hstep with
    | writeStaging b k hb =>
      left
      rfl
    | renameOverLive b hb hs =>
      right
      exact ⟨b, hb, rfl⟩

/-- Demonstration snapshot content for the C1 witness. -/
def pubDocsW : List String := ["docA"]

/-- Intermediate durable state: the write to staging is in progress. -/
def pubMidW : PubFS := { staging := some ("docA".take 4), live := none }

/-- Final durable state after the atomic rename. -/
def pubFinalW : PubFS := { staging := none, live := some "docA" }

theorem c1_witness :
    ReachableFS pubDocsW pubFinalW ∧ LiveComplete pubDocsW pubFinalW :=
  have hstep1 : PubStep pubDocsW initFS pubMidW :=
    PubStep.writeStaging initFS "docA" 4 (by decide)
  have hstep2 : PubStep pubDocsW pubMidW pubFinalW :=
    PubStep.renameOverLive pubMidW "docA" (by decide) (by decide)
  have hreach : ReachableFS pubDocsW pubFinalW :=
    Relation.ReflTransGen.tail
      (Relation.ReflTransGen.tail Relation.ReflTransGen.refl hstep1) hstep2
  ⟨hreach, (c1_publish_atomic pubDocsW pubFinalW hreach).1⟩

/-- Claim C2: generation is deterministic and independent of insertion order:
two Registry views that are permutations of each other (names being unique,
as the Registry keying guarantees) generate equal documents with
byte-identical serialization; a repeated call on the same view is the same
pure function application. -/
theorem c2_generate_deterministic (r1 r2 : Registry)
    (hI : List.Perm r1.identities r2.identities)
    (hP : List.Perm r1.permissions r2.permissions)
    (hIn : (r1.identities.map Identity.name).Nodup)
    (hPn : (r1.permissions.map PermissionTemplate.name).Nodup) :
    generate r1 = generate r2 ∧
    serializeResult (generate r1) = serializeResult (generate r2) := by
  have h1 : sortIdents r1.identities = sortIdents r2.identities :=
    sortByName_eq_of_perm Identity.name _ _ hI hIn
  have h2 : sortPerms r1.permissions = sortPerms r2.permissions :=
    sortByName_eq_of_perm PermissionTemplate.name _ _ hP hPn
  have hg : generate r1 = generate r2 := by
    unfold generate
    rw [h1, h2]
  exact ⟨hg, by rw [hg]⟩

/-- Registry for the C2 witness. -/
def regW2a : Registry :=
  { identities :=
      [{ name := "user-b", credential := "secret", permissionRef := some "normal-user",
         accountRef := none },
       { name := "user-a", credential := "secret", permissionRef := some "normal-user",
         accountRef := none }],
    permissions :=
      [{ name := "normal-user", publishAllow := ["foo", "bar"], publishDeny := [],
         subscribeAllow := [], subscribeDeny := ["quux"] },
       { name := "admin-user", publishAllow := [], publishDeny := [],
         subscribeAllow := [], subscribeDeny := [] }] }

/-- The same Registry content inserted in the opposite order. -/
def regW2b : Registry :=
  { identities := regW2a.identities.reverse,
    permissions := regW2a.permissions.reverse }

theorem c2_witness :
    List.Perm regW2a.identities regW2b.identities ∧
    List.Perm regW2a.permissions regW2b.permissions ∧
    (regW2a.identities.map Identity.name).Nodup ∧
    (regW2a.permissions.map PermissionTemplate.name).Nodup ∧
    (generate regW2a = generate regW2b ∧
      serializeResult (generate regW2a) = serializeResult (generate regW2b)) :=
  ⟨by decide, by decide, by decide, by decide,
    c2_generate_deterministic regW2a regW2b (by decide) (by decide) (by decide) (by decide)⟩

/-- A dangling reference in a Registry makes generation fail with an error
that names a dangling identity and its missing template. -/
theorem generate_error_of_dangling {r : Registry}
    (h : ∃ i ∈ r.identities, ∃ ref, i.permissionRef = some ref ∧
      ∀ p ∈ r.permissions, p.name ≠ ref) :
    ∃ e, generate r = Except.error e ∧
      (∃ i ∈ r.identities, i.name = e.identity ∧ i.permissionRef = some e.missingTemplate) ∧
      (∀ p ∈ r.permissions, p.name ≠ e.missingTemplate) := by
  obtain ⟨i, hi, ref, h1, h2⟩ := h
  have h2s : lookupPerm (sortPerms r.permissions) ref = none := by
    rw [lookupPerm_eq_none_iff]
    intro p hp
    exact h2 p (mem_sortByName.mp hp)
  obtain ⟨e, he⟩ :=
    generateSorted_error_of_dangling ⟨i, mem_sortByName.mpr hi, ref, h1, h2s⟩
  obtain ⟨⟨j, hj, hjn, hjr⟩, hl⟩ := generateSorted_error_spec he
  refine ⟨e, he, ⟨j, mem_sortByName.mp hj, hjn, hjr⟩, ?_⟩
  rw [lookupPerm_eq_none_iff] at hl
  intro p hp
  exact hl p (mem_sortByName.mpr hp)

/-- Claim C3: when the permissionRef of some identity does not resolve in the
Registry view, snapshot creation fails with a DanglingReference naming a
dangling identity and its missing template, the service state is unchanged,
and nothing is persisted under the requested snapshot name. -/
theorem c3_dangling_aborts_snapshot (s : StoreState) (n : String)
    (h : ∃ i ∈ s.registry.identities, ∃ ref, i.permissionRef = some ref ∧
      ∀ p ∈ s.registry.permissions, p.name ≠ ref) :
    ∃ ident missing, takeSnapshot s n = (OpResult.errDangling ident missing, s) ∧
      (∃ i ∈ s.registry.identities, i.name = ident ∧ i.permissionRef = some missing) ∧
      (∀ p ∈ s.registry.permissions, p.name ≠ missing) ∧
      getSnapshot (takeSnapshot s n).2.snapshots n = getSnapshot s.snapshots n := by
  obtain ⟨e, he, hid, hmiss⟩ := generate_error_of_dangling h
  have ht : takeSnapshot s n = (OpResult.errDangling e.identity e.missingTemplate, s) := by
    unfold takeSnapshot
    rw [he]
  exact ⟨e.identity, e.missingTemplate, ht, hid, hmiss, by rw [ht]⟩

/-- Identity for the C3 witness, referencing the template "missing" that is
never upserted. -/
def identW3 : Identity :=
  { name := "user-c", credential := "secret", permissionRef := some "missing",
    accountRef := none }

/-- Service state for the C3 witness. -/
def stateW3 : StoreState :=
  { registry := { identities := [identW3], permissions := [] },
    snapshots := [], currentSnapshotName := none, liveDoc := none }

theorem c3_witness :
    (∃ i ∈ stateW3.registry.identities, ∃ ref, i.permissionRef = some ref ∧
      ∀ p ∈ stateW3.registry.permissions, p.name ≠ ref) ∧
    (∃ ident missing, takeSnapshot stateW3 "snap" = (OpResult.errDangling ident missing, stateW3) ∧
      (∃ i ∈ stateW3.registry.identities, i.name = ident ∧ i.permissionRef = some missing) ∧
      (∀ p ∈ stateW3.registry.permissions, p.name ≠ missing) ∧
      getSnapshot (takeSnapshot stateW3 "snap").2.snapshots "snap" =
        getSnapshot stateW3.snapshots "snap") := by
  have hW3 : ∃ i ∈ stateW3.registry.identities, ∃ ref, i.permissionRef = some ref ∧
      ∀ p ∈ stateW3.registry.permissions, p.name ≠ ref := by
    refine ⟨identW3, by decide, "missing", rfl, ?_⟩
    intro p hp
    exact absurd hp (List.not_mem_nil p)
  exact ⟨hW3, c3_dangling_aborts_snapshot stateW3 "snap" hW3⟩

/-- Claim C6: grouping in the generated document.  When some identity carries
an account reference, the document is the accounts shape: each listed
account holds exactly the identities referencing it, the accounts listed are
exactly the referenced ones, and the global users list holds exactly the
identities without an account reference.  When no identity carries an
account reference, the document is one flat users list with all identities.
With unique identity names, an identity with an account reference appears
neither in the global list nor under any other account. -/
theorem c6_account_grouping (r : Registry) (d : AuthDocument)
    (h : generate r = Except.ok d) :
    ((∃ i ∈ r.identities, i.accountRef ≠ none) →
      ∃ accounts globals, d = AuthDocument.withAccounts accounts globals ∧
        (∀ a us, (a, us) ∈ accounts → ∀ n, (∃ u ∈ us, u.username = n) ↔
          (∃ i ∈ r.identities, i.name = n ∧ i.accountRef = some a)) ∧
        (∀ a, (∃ us, (a, us) ∈ accounts) ↔ (∃ i ∈ r.identities, i.accountRef = some a)) ∧
        (∀ n, (∃ u ∈ globals, u.username = n) ↔
          (∃ i ∈ r.identities, i.name = n ∧ i.accountRef = none))) ∧
    ((∀ i ∈ r.identities, i.accountRef = none) →
      ∃ users, d = AuthDocument.flat users ∧
        (∀ n, (∃ u ∈ users, u.username = n) ↔ (∃ i ∈ r.identities, i.name = n))) ∧
    ((r.identities.map Identity.name).Nodup →
      ∀ accounts globals, d = AuthDocument.withAccounts accounts globals →
        ∀ i ∈ r.identities, ∀ a, i.accountRef = some a →
          (∀ u ∈ globals, u.username ≠ i.name) ∧
          (∀ b us, (b, us) ∈ accounts → b ≠ a → ∀ u ∈ us, u.username ≠ i.name)) := by
  unfold generate generateSorted at h
  split at h
  · rename_i heq
    cases hr : renderUsers (sortPerms r.permissions) (sortIdents r.identities) with
    | error e =>
      rw [hr] at h
      cases h
    | ok users =>
      rw [hr] at h
      cases h
      have hallnone : ∀ i ∈ r.identities, i.accountRef = none := by
        intro i hi
        exact (accountNames_eq_nil_iff.mp heq) i (mem_sortByName.mpr hi)
      refine ⟨?_, ?_, ?_⟩
      · rintro ⟨i, hi, hne⟩
        exact absurd (hallnone i hi) hne
      · intro _
        refine ⟨users, rfl, ?_⟩
        intro n
        rw [renderUsers_ok_names hr n]
        constructor
        · rintro ⟨i, hi, hn⟩
          exact ⟨i, mem_sortByName.mp hi, hn⟩
        · rintro ⟨i, hi, hn⟩
          exact ⟨i, mem_sortByName.mpr hi, hn⟩
      · intro _ accounts globals hd
        cases hd
  · rename_i a rest heq
    cases hg : renderUsers (sortPerms r.permissions)
        ((sortIdents r.identities).filter (fun i => decide (i.accountRef = none))) with
    | error e =>
      rw [hg] at h
      cases h
    | ok globals =>
      rw [hg] at h
      cases hra : renderAccounts (sortPerms r.permissions) (sortIdents r.identities)
          (a :: rest) with
      | error e =>
        rw [hra] at h
        cases h
      | ok accounts =>
        rw [hra] at h
        cases h
        obtain ⟨hspec1, hspec2⟩ := renderAccounts_ok_spec hra
        have haccmem : ∀ b : String, b ∈ (a :: rest) ↔
            ∃ i ∈ r.identities, i.accountRef = some b := by
          intro b
          rw [← heq, mem_accountNames]
          constructor
          · rintro ⟨i, hi, hb⟩
            exact ⟨i, mem_sortByName.mp hi, hb⟩
          · rintro ⟨i, hi, hb⟩
            exact ⟨i, mem_sortByName.mpr hi, hb⟩
        have hacciff : ∀ b us, (b, us) ∈ accounts → ∀ n, (∃ u ∈ us, u.username = n) ↔
            (∃ i ∈ r.identities, i.name = n ∧ i.accountRef = some b) := by
          intro b us hmem n
          obtain ⟨hbin, hrw⟩ := hspec1 b us hmem
          rw [renderUsers_ok_names hrw n]
          constructor
          · rintro ⟨i, hif, hn⟩
            obtain ⟨hi, hpred⟩ := List.mem_filter.mp hif
            exact ⟨i, mem_sortByName.mp hi, hn, of_decide_eq_true hpred⟩
          · rintro ⟨i, hi, hn, hb⟩
            exact ⟨i, List.mem_filter.mpr ⟨mem_sortByName.mpr hi, decide_eq_true hb⟩, hn⟩
        have hglobiff : ∀ n, (∃ u ∈ globals, u.username = n) ↔
            (∃ i ∈ r.identities, i.name = n ∧ i.accountRef = none) := by
          intro n
          rw [renderUsers_ok_names hg n]
          constructor
          · rintro ⟨i, hif, hn⟩
            obtain ⟨hi, hpred⟩ := List.mem_filter.mp hif
            exact ⟨i, mem_sortByName.mp hi, hn, of_decide_eq_true hpred⟩
          · rintro ⟨i, hi, hn, hb⟩
            exact ⟨i, List.mem_filter.mpr ⟨mem_sortByName.mpr hi, decide_eq_true hb⟩, hn⟩
        refine ⟨?_, ?_, ?_⟩
        · intro _
          refine ⟨accounts, globals, rfl, hacciff, ?_, hglobiff⟩
          intro b
          constructor
          · rintro ⟨us, hus⟩
            exact (haccmem b).mp (hspec1 b us hus).1
          · intro hex
            exact hspec2 b ((haccmem b).mpr hex)
        · intro hall
          have hmema : ∃ i ∈ r.identities, i.accountRef = some a :=
            (haccmem a).mp (List.mem_cons_self a rest)
          obtain ⟨i, hi, hia⟩ := hmema
          rw [hall i hi] at hia
          cases hia
        · intro hnd accounts2 globals2 hd i hi a2 har
          have hinj : ∀ x ∈ r.identities, ∀ y ∈ r.identities,
              x.name = y.name → x = y :=
            (List.nodup_map_iff_inj_on hnd.of_map).mp hnd
          cases hd
          constructor
          · intro u hu hcontra
            obtain ⟨j, hj, hjn, hjref⟩ := (hglobiff i.name).mp ⟨u, hu, hcontra⟩
            have hji : j = i := hinj j hj i hi hjn
            rw [hji] at hjref
            rw [har] at hjref
            cases hjref
          · intro b us hbus hbne u hu hcontra
            obtain ⟨j, hj, hjn, hjref⟩ := (hacciff b us hbus i.name).mp ⟨u, hu, hcontra⟩
            have hji : j = i := hinj j hj i hi hjn
            rw [hji, har] at hjref
            cases hjref
            exact hbne rfl

/-- Permission template for the C6 witness, as in the accounts test scenario. -/
def permW6 : PermissionTemplate :=
  { name := "normal-user", publishAllow := ["foo", "bar"], publishDeny := [],
    subscribeAllow := [], subscribeDeny := ["quux"] }

/-- Registry for the C6 witness: two account-bound identities and one global
identity. -/
def regW6 : Registry :=
  { identities :=
      [{ name := "foo-user", credential := "secret", permissionRef := some "normal-user",
         accountRef := some "foo" },
       { name := "bar-user", credential := "secret", permissionRef := some "normal-user",
         accountRef := some "bar" },
       { name := "quux-user", credential := "secret", permissionRef := some "normal-user",
         accountRef := none }],
    permissions := [permW6] }

/-- Rendered permissions block shared by the C6 witness users. -/
def pbW6 : PermBlock :=
  { pubAllow := some ["foo", "bar"], pubDeny := none, subAllow := none,
    subDeny := some ["quux"] }

/-- Document generated from the C6 witness registry. -/
def docW6 : AuthDocument :=
  AuthDocument.withAccounts
    [("bar", [{ username := "bar-user", password := "secret", permissions := some pbW6 }]),
     ("foo", [{ username := "foo-user", password := "secret", permissions := some pbW6 }])]
    [{ username := "quux-user", password := "secret", permissions := some pbW6 }]

theorem c6_witness :
    generate regW6 = Except.ok docW6 ∧
    (((∃ i ∈ regW6.identities, i.accountRef ≠ none) →
      ∃ accounts globals, docW6 = AuthDocument.withAccounts accounts globals ∧
        (∀ a us, (a, us) ∈ accounts → ∀ n, (∃ u ∈ us, u.username = n) ↔
          (∃ i ∈ regW6.identities, i.name = n ∧ i.accountRef = some a)) ∧
        (∀ a, (∃ us, (a, us) ∈ accounts) ↔ (∃ i ∈ regW6.identities, i.accountRef = some a)) ∧
        (∀ n, (∃ u ∈ globals, u.username = n) ↔
          (∃ i ∈ regW6.identities, i.name = n ∧ i.accountRef = none))) ∧
    ((∀ i ∈ regW6.identities, i.accountRef = none) →
      ∃ users, docW6 = AuthDocument.flat users ∧
        (∀ n, (∃ u ∈ users, u.username = n) ↔ (∃ i ∈ regW6.identities, i.name = n))) ∧
    ((regW6.identities.map Identity.name).Nodup →
      ∀ accounts globals, docW6 = AuthDocument.withAccounts accounts globals →
        ∀ i ∈ regW6.identities, ∀ a, i.accountRef = some a →
          (∀ u ∈ globals, u.username ≠ i.name) ∧
          (∀ b us, (b, us) ∈ accounts → b ≠ a → ∀ u ∈ us, u.username ≠ i.name))) := by
  have hgen : generate regW6 = Except.ok docW6 := by rfl
  exact ⟨hgen, c6_account_grouping regW6 docW6 hgen⟩

end NatsProxy
